import Mathlib

/-!
Verification of the jina-reader-crawler (`crawler.py`) against its
natural-language specification.

The Python source is shallowly embedded: strings are Lean `String`s, and the
Python string methods used by the source (`replace`, `strip`, `startswith`,
`endswith`, `lower`, `in`, `split`) are modelled as executable functions over
`List Char` (ASCII semantics; every concrete input appearing in the claims is
ASCII).  Network interaction is modelled as an oracle `Nat → HttpResult`
giving the transport result of the n-th HTTP request issued by a fetch, and
the fetcher additionally records a trace of the requests it sends and the
sleeps it performs, so that retry/backoff claims are statements about the
trace.
-/

namespace Crawler

/-! ## Models of the Python string primitives (over `List Char`) -/

/-- `isPrefixList p l` : `p` is a leading segment of `l` (Python `startswith`). -/
def isPrefixList : List Char → List Char → Bool
  | [], _ => true
  | _ :: _, [] => false
  | a :: as, b :: bs => a == b && isPrefixList as bs

/-- Python `pat in s` (substring containment). -/
def containsList (pat : List Char) : List Char → Bool
  | [] => isPrefixList pat []
  | c :: rest => isPrefixList pat (c :: rest) || containsList pat rest

/-- Split at the first occurrence of `pat`: returns the part before and the
part after the first match, or `none` when `pat` does not occur. -/
def splitFirstOn (pat : List Char) : List Char → Option (List Char × List Char)
  | [] => none
  | c :: rest =>
    if isPrefixList pat (c :: rest) then some ([], (c :: rest).drop pat.length)
    else
      match splitFirstOn pat rest with
      | some (pre, post) => some (c :: pre, post)
      | none => none

/-- Fuel-driven worker for `replaceList`; the fuel is an upper bound on the
input length, so it never runs out on the intended calls. -/
def replaceGo (pat rep : List Char) : Nat → List Char → List Char
  | _, [] => []
  | 0, l => l
  | fuel + 1, c :: rest =>
    if pat ≠ [] ∧ isPrefixList pat (c :: rest) = true then
      rep ++ replaceGo pat rep fuel (rest.drop (pat.length - 1))
    else
      c :: replaceGo pat rep fuel rest

/-- Python `s.replace(pat, rep)` for a non-empty `pat`: replace every
occurrence, scanning left to right, never rescanning replacement text. -/
def replaceList (pat rep l : List Char) : List Char :=
  replaceGo pat rep l.length l

/-- Python `s.split(sep)` for a single separator character. -/
def splitOnChar (sep : Char) : List Char → List (List Char)
  | [] => [[]]
  | c :: rest =>
    if c = sep then [] :: splitOnChar sep rest
    else
      match splitOnChar sep rest with
      | [] => [[c]]
      | h :: t => (c :: h) :: t

/-- Python `sep.join(parts)` for a single separator character. -/
def joinChar (sep : Char) : List (List Char) → List Char
  | [] => []
  | [x] => x
  | x :: y :: t => x ++ sep :: joinChar sep (y :: t)

/-- Python whitespace, as tested by `str.strip()` (ASCII model). -/
def isPySpace (c : Char) : Bool :=
  c == ' ' || c == '\t' || c == '\n' || c == '\r' || c == '\x0b' || c == '\x0c'

/-- Strip characters satisfying `p` from both ends. -/
def stripWhile (p : Char → Bool) (l : List Char) : List Char :=
  ((l.dropWhile p).reverse.dropWhile p).reverse

/-- ASCII lower-casing of one character (model of Python `str.lower`). -/
def lowerChar (c : Char) : Char :=
  if 'A' ≤ c ∧ c ≤ 'Z' then Char.ofNat (c.toNat + 32) else c

/-! String-level wrappers (the source manipulates Python `str` values). -/

/-- Python `s.replace(pat, rep)`. -/
def pyReplace (s pat rep : String) : String :=
  String.mk (replaceList pat.toList rep.toList s.toList)

/-- Python `pat in s`. -/
def pyContains (s pat : String) : Bool :=
  containsList pat.toList s.toList

/-- Python `s.strip()`. -/
def pyStrip (s : String) : String :=
  String.mk (stripWhile isPySpace s.toList)

/-- Python `s.startswith(pre)`. -/
def pyStartswith (s pre : String) : Bool :=
  isPrefixList pre.toList s.toList

/-- Python `s.endswith(suf)`. -/
def pyEndswith (s suf : String) : Bool :=
  isPrefixList suf.toList.reverse s.toList.reverse

/-- Python `s.lower()`. -/
def pyLower (s : String) : String :=
  String.mk (s.toList.map lowerChar)

/-- Python `s.split(c)` for one separator character. -/
def pySplitOn (s : String) (sep : Char) : List String :=
  (splitOnChar sep s.toList).map String.mk

/-- Python `sep.join(parts)` for one separator character. -/
def pyJoin (sep : Char) (parts : List String) : String :=
  String.mk (joinChar sep (parts.map String.toList))

/-! ## Data model of the fetch pipeline -/

/-- The nested `data` object of a parsed Jina Reader JSON response.
`url` is `none` when the response omits the resolved URL (the source then
falls back to the requested URL); `lang` models `metadata.get('lang', '')`
(`""` when the metadata object or its `lang` key is missing). -/
structure JinaData where
  title : String
  content : String
  url : Option String
  description : String
  lang : String
deriving DecidableEq, Repr

/-- A parsed JSON response body: the `warning` field
(`data.get('warning', '')`, `""` when absent) and the nested `data` object
(`data.get('data', \x7b\x7d)`). -/
structure JinaBody where
  warning : String
  data : JinaData
deriving DecidableEq, Repr

/-- Transport-level result of one HTTP request issued by the fetcher:
a timeout, a connection error, or a response with a status code and a body
(`none` models a body that fails to parse as JSON). -/
inductive HttpResult where
  | timeout
  | connError
  | resp (status : Nat) (body : Option JinaBody)
deriving DecidableEq, Repr

/-- The configuration the fetcher consumes: `EU_COMPLIANCE`, `NO_CACHE`
and `RETRY_COUNT` from the environment. -/
structure Config where
  euCompliance : Bool
  noCache : Bool
  retryCount : Nat
deriving DecidableEq, Repr

/-- The normalized result of one successful fetch (the fields the source
extracts at crawler.py lines 162-172). -/
structure PageRecord where
  title : String
  markdownBody : String
  resolvedUrl : String
  description : String
  language : String
deriving DecidableEq, Repr

/-- Failure taxonomy of the spec (§7).  The source signals every failure by
returning `None`; the constructor records which exit path of
`fetch_with_jina` was taken. -/
inductive FailReason where
  | timeout
  | connError
  | httpError (status : Nat)
  | invalidResponse
  | staleContent
deriving DecidableEq, Repr

/-- Tagged outcome of one whole fetch. -/
inductive FetchOutcome where
  | success (r : PageRecord)
  | failure (reason : FailReason)
deriving DecidableEq, Repr

/-- Observable actions of the fetcher: an HTTP request (recording whether the
no-cache directive header is set on it) and a sleep of a number of
time-units. -/
inductive Event where
  | request (noCacheHeader : Bool)
  | sleep (units : Nat)
deriving DecidableEq, Repr

/-- `"cached snapshot" in warning.lower()` (crawler.py lines 137, 152). -/
def cachedWarn (w : String) : Bool :=
  containsList ("cached snapshot".toList) (w.toList.map lowerChar)

/-- Field extraction from a clean parsed body (crawler.py lines 162-172):
`title`, `content`, resolved `url` defaulting to the requested URL,
`description` (unconditional), and `lang` from the metadata object only when
`EU_COMPLIANCE` is false. -/
def extractRecord (cfg : Config) (url : String) (b : JinaBody) : PageRecord :=
  { title := b.data.title
    markdownBody := b.data.content
    resolvedUrl := b.data.url.getD url
    description := b.data.description
    language := if cfg.euCompliance then "" else b.data.lang }

/-- The single forced-fresh cache-busting request (crawler.py lines 139-160):
`raise_for_status`, JSON re-parse and warning re-check on the retry response;
any failure there makes the whole fetch fail (`StaleContent` in the spec's
taxonomy — the source returns `None` on each of these paths). -/
def cacheRetry (cfg : Config) (url : String) (r : HttpResult) : FetchOutcome :=
  match r with
  | .timeout => .failure .staleContent
  | .connError => .failure .staleContent
  | .resp status body =>
    if 400 ≤ status then .failure .staleContent
    else
      match body with
      | none => .failure .staleContent
      | some b =>
        if cachedWarn b.warning then .failure .staleContent
        else .success (extractRecord cfg url b)

/-- The attempt loop of `fetch_with_jina` (crawler.py lines 114-201).
`remaining` is the number of attempts still allowed after the current one
(`RETRY_COUNT - attempt`); `idx` indexes the oracle of transport results so
that every issued request (including the cache-busting one) consumes the next
oracle entry.  Returns the outcome together with the trace of requests and
sleeps. -/
def fetchLoop (cfg : Config) (env : Nat → HttpResult) (url : String) :
    Nat → Nat → FetchOutcome × List Event
  | remaining, idx =>
    match env idx with
    | .timeout =>
      match remaining with
      | 0 => (.failure .timeout, [.request cfg.noCache])
      | n + 1 =>
        let r := fetchLoop cfg env url n (idx + 1)
        (r.1, .request cfg.noCache :: .sleep 2 :: r.2)
    | .connError =>
      match remaining with
      | 0 => (.failure .connError, [.request cfg.noCache])
      | n + 1 =>
        let r := fetchLoop cfg env url n (idx + 1)
        (r.1, .request cfg.noCache :: .sleep 2 :: r.2)
    | .resp status body =>
      if 400 ≤ status then
        match remaining with
        | 0 => (.failure (.httpError status), [.request cfg.noCache])
        | n + 1 =>
          let r := fetchLoop cfg env url n (idx + 1)
          (r.1, .request cfg.noCache :: .sleep 2 :: r.2)
      else
        match body with
        | none => (.failure .invalidResponse, [.request cfg.noCache])
        | some b =>
          if cachedWarn b.warning ∧ cfg.noCache = false then
            (cacheRetry cfg url (env (idx + 1)),
             [.request cfg.noCache, .sleep 1, .request true])
          else
            (.success (extractRecord cfg url b), [.request cfg.noCache])

/-- `fetch_with_jina` (crawler.py lines 75-201): the attempt loop entered
with the full `RETRY_COUNT + 1` attempt budget. -/
def fetch_with_jina (cfg : Config) (env : Nat → HttpResult) (url : String) :
    FetchOutcome × List Event :=
  fetchLoop cfg env url cfg.retryCount 0

/-- Expected trace of a run in which every attempt fails with a retryable
error: `n + 1` requests separated by `n` fixed 2-unit backoffs. -/
def retryTrace (nc : Bool) : Nat → List Event
  | 0 => [.request nc]
  | n + 1 => .request nc :: .sleep 2 :: retryTrace nc n

/-- Is the event an HTTP request? -/
def isRequestEvent : Event → Bool
  | .request _ => true
  | .sleep _ => false

/-- Is the event a backoff sleep of 2 time-units? -/
def isBackoffEvent : Event → Bool
  | .sleep 2 => true
  | _ => false

/-! ## URL Source Resolver (`get_urls_from_sitemap`, crawler.py lines 44-71) -/

/-- Result of the sitemap GET, as the resolver observes it:
`netFailure` models a raised transport exception or `raise_for_status` on a
bad status; `ok none` models a body on which `ET.fromstring` raises
(malformed XML); `ok (some locs)` models a parsed sitemap whose `url`
elements carry the given `loc` texts (`none` for a missing `loc` element or
a `loc` with no text). -/
inductive SitemapFetch where
  | netFailure
  | ok (parsed : Option (List (Option String)))
deriving DecidableEq, Repr

/-- `get_urls_from_sitemap` (crawler.py lines 44-71): a non-`.xml` target is
returned as a single-element list; every exception path (network failure and
malformed XML alike) returns the empty list; a parsed sitemap yields the
stripped non-empty `loc` texts in document order. -/
def get_urls_from_sitemap (target : String) (f : SitemapFetch) : List String :=
  if pyEndswith target ".xml" = false then [target]
  else
    match f with
    | .netFailure => []
    | .ok none => []
    | .ok (some locs) =>
      locs.filterMap fun o =>
        match o with
        | none => none
        | some t => if t = "" then none else some (pyStrip t)

/-- `main`, crawler.py lines 510-513: the run aborts before any fetch
exactly when the resolver returned the empty list (`if not urls: return`). -/
def runAbortsOnUrls (urls : List String) : Bool :=
  urls.isEmpty

/-! ## Content Writer (`save_markdown`, crawler.py lines 299-383) -/

/-- Is the text before the first `:` a well-formed URL scheme
(`urlsplit`: a letter followed by letters, digits, `+`, `-`, `.`)? -/
def validScheme (s : List Char) : Bool :=
  match s with
  | [] => false
  | c :: rest => c.isAlpha && rest.all fun ch => ch.isAlphanum || ch == '+' || ch == '-' || ch == '.'

/-- CPython `urllib.parse.uses_params`: the schemes for which `urlparse`
splits `;params` off the last path segment. -/
def uses_params : List (List Char) :=
  [[], "ftp".toList, "hdl".toList, "prospero".toList, "http".toList, "imap".toList,
   "https".toList, "shttp".toList, "rtsp".toList, "rtsps".toList, "rtspu".toList,
   "sip".toList, "sips".toList, "mms".toList, "sftp".toList, "tel".toList]

/-- CPython `urllib.parse._splitparams` restricted to the path component it
returns: everything from the first `;` at or after the last `/` (or from the
first `;` when the path has no `/`) is dropped. -/
def splitParams (path : List Char) : List Char :=
  let segRev := path.reverse.takeWhile fun c => !(c == '/')
  (path.reverse.drop segRev.length).reverse ++ segRev.reverse.takeWhile fun c => !(c == ';')

/-- The netloc/path split that `urlparse` provides to `save_markdown`,
modelled for absolute hierarchical URLs `scheme://...`: the netloc is what
lies between the first `://` and the next `/`, `?` or `#`; the raw path runs
from there to the first `?` or `#`; and, as `urlparse` does for the schemes
in `uses_params` when the raw path contains a `;`, the `;params` of the last
path segment are dropped from the path.  Without a `://` the whole input is
treated as a scheme-less path (scheme `""` is in `uses_params`); the
degenerate shapes `urlsplit` treats differently (an invalid scheme name, a
scheme not followed by `//`) are outside this model, and the theorems about
it carry a `validScheme` hypothesis. -/
def urlSplit (url : String) : String × String :=
  match splitFirstOn ([':', '/', '/']) url.toList with
  | none =>
    let rawPath := url.toList.takeWhile fun c => !(c == '?' || c == '#')
    ("", String.mk (if containsList ([';']) rawPath then splitParams rawPath else rawPath))
  | some (scheme, rest) =>
    let netloc := rest.takeWhile fun c => !(c == '/' || c == '?' || c == '#')
    let rawPath := (rest.drop netloc.length).takeWhile fun c => !(c == '?' || c == '#')
    let path :=
      if uses_params.contains (scheme.map lowerChar) && containsList ([';']) rawPath then
        splitParams rawPath
      else rawPath
    (String.mk netloc, String.mk path)

/-- Python `s.strip(c)` for one character: both ends. -/
def stripCharEnds (c : Char) (l : List Char) : List Char :=
  stripWhile (fun x => x == c) l

/-- Filename derivation of `save_markdown` (crawler.py lines 304-308):
`domain = parsed.netloc.replace('www.', '')` (every occurrence),
`path = parsed.path.strip('/').replace('/', '_') or 'index'`,
`filename = f"\x7bdomain\x7d_\x7bpath\x7d.md"`. -/
def save_filename (url : String) : String :=
  let p := urlSplit url
  let domain := String.mk (replaceList ("www.".toList) [] p.1.toList)
  let path0 := replaceList ['/'] ['_'] (stripCharEnds '/' p.2.toList)
  let path := if path0 = [] then "index".toList else path0
  domain ++ "_" ++ String.mk path ++ ".md"

/-- Modelled from the spec: the spec's own filename derivation (§4.3 / C5),
which removes only a single leading `www.` from the host, for comparison
with `save_filename` as the source implements it. -/
def save_filename_specModel (url : String) : String :=
  let p := urlSplit url
  let nl := p.1.toList
  let domain := String.mk (if isPrefixList ("www.".toList) nl then nl.drop 4 else nl)
  let path0 := replaceList ['/'] ['_'] (stripCharEnds '/' p.2.toList)
  let path := if path0 = [] then "index".toList else path0
  domain ++ "_" ++ String.mk path ++ ".md"

/-- The formatted text blob `fetch_with_jina` hands to `save_markdown`
(crawler.py line 177). -/
def formatted_content (title url_source description lang content : String) : String :=
  "Title: " ++ title ++ "\n\nURL Source: " ++ url_source ++
  "\n\nDescription: " ++ description ++ "\n\nLanguage: " ++ lang ++
  "\n\nMarkdown Content:\n" ++ content

/-- The fields `save_markdown` recovers by re-parsing the formatted blob
(crawler.py lines 317-337). -/
structure SavedFields where
  title : String
  url_source : String
  description : String
  language : String
  markdown_content : String
deriving DecidableEq, Repr

/-- The line loop of `save_markdown` (crawler.py lines 326-338): each header
line re-assigns its field via `replace`/`strip`; the `Markdown Content:`
line captures the join of all remaining lines, stripped, and stops the
loop. -/
def parseSavedLines : List String → SavedFields → SavedFields
  | [], acc => acc
  | line :: rest, acc =>
    if pyStartswith line "Title: " then
      parseSavedLines rest { acc with title := pyStrip (pyReplace line "Title: " "") }
    else if pyStartswith line "URL Source: " then
      parseSavedLines rest { acc with url_source := pyStrip (pyReplace line "URL Source: " "") }
    else if pyStartswith line "Description: " then
      parseSavedLines rest { acc with description := pyStrip (pyReplace line "Description: " "") }
    else if pyStartswith line "Language: " then
      parseSavedLines rest { acc with language := pyStrip (pyReplace line "Language: " "") }
    else if pyStartswith line "Markdown Content:" then
      { acc with markdown_content := pyStrip (pyJoin '\n' rest) }
    else
      parseSavedLines rest acc

/-- The parsing phase of `save_markdown` applied to a content blob. -/
def save_markdown_parse (content : String) : SavedFields :=
  parseSavedLines (pySplitOn content '\n') ⟨"", "", "", "", ""⟩

/-- `main`, crawler.py lines 573-577: on a successful fetch the file is saved
under the name derived from the *requested* URL (the loop variable `url`,
which is what `main` passes to `save_markdown`). -/
def crawlSavedFilename (cfg : Config) (env : Nat → HttpResult) (url : String) :
    Option String :=
  match (fetch_with_jina cfg env url).1 with
  | .success _ => some (save_filename url)
  | .failure _ => none

/-! ## Duplicate Classifier (`analyze_duplicates`, crawler.py lines 226-296) -/

/-- Characters kept by `re.sub(r'[^\w\s-]', '', title)` (ASCII model of
`\w` and `\s`). -/
def keepTitleChar (c : Char) : Bool :=
  c.isAlphanum || c == '_' || isPySpace c || c == '-'

/-- Is the character collapsed by `re.sub(r'[-\s]+', '-', s)`? -/
def isRunChar (c : Char) : Bool :=
  isPySpace c || c == '-'

/-- Structurally recursive model of `re.sub(r'[-\s]+', '-', s)`: every
maximal run of whitespace/hyphen characters becomes a single hyphen.
`inRun` records whether the previous character belonged to a run. -/
def collapseRunsGo : Bool → List Char → List Char
  | _, [] => []
  | inRun, c :: rest =>
    if isRunChar c then
      if inRun then collapseRunsGo true rest
      else '-' :: collapseRunsGo true rest
    else c :: collapseRunsGo false rest

/-- `re.sub(r'[-\s]+', '-', s)`. -/
def collapseRuns (l : List Char) : List Char :=
  collapseRunsGo false l

/-- The safe folder name computed for a duplicate group
(crawler.py lines 268-274): strip non-word characters, strip surrounding
whitespace, collapse whitespace/hyphen runs to `-`, lower-case, truncate to
50 characters, `"untitled"` if empty. -/
def safe_title (title : String) : String :=
  let s1 := stripWhile isPySpace (title.toList.filter keepTitleChar)
  let s2 := (collapseRuns s1).map lowerChar
  let s3 := if 50 < s2.length then s2.take 50 else s2
  if s3 = [] then "untitled" else String.mk s3

/-- One markdown file as the classifier sees it: its filename and the title
key it is grouped by (the frontmatter `title`, falling back to the filename
stem — `extract_frontmatter` and crawler.py line 247). -/
structure FileEntry where
  name : String
  title : String
deriving DecidableEq, Repr

/-- How many of the files carry title `t` (the size of `t`'s group in
`title_to_files`). -/
def titleCount (fs : List FileEntry) (t : String) : Nat :=
  fs.countP fun f => f.title == t

/-- Result of one classifier pass: the files left at the top level and the
relocations performed, each recording the destination subfolder name. -/
structure DupResult where
  kept : List FileEntry
  moved : List (String × FileEntry)
deriving DecidableEq, Repr

/-- `analyze_duplicates` (crawler.py lines 226-296) on the top-level `*.md`
files of the output directory: every member of a title group of size ≥ 2
(including the first) is moved into `duplicates/<safe_title>/`; groups of
size 1 stay.  Moved files land in subfolders, which the top-level `*.md`
glob of a later pass does not see. -/
def analyze_duplicates (fs : List FileEntry) : DupResult :=
  { kept := fs.filter fun f => decide (titleCount fs f.title ≤ 1)
    moved := (fs.filter fun f => decide (2 ≤ titleCount fs f.title)).map
      fun f => (safe_title f.title, f) }

/-! ## Crawl Orchestrator (`main`, crawler.py lines 441-616) -/

/-- `START_FROM_INDEX` validation and slicing (crawler.py lines 515-531):
`none` models the aborting `return`; otherwise the first `idx - 1` URLs are
skipped. -/
def applyStartIndex (idx : Int) (urls : List String) : Option (List String) :=
  if idx < 1 then none
  else if (urls.length : Int) < idx then none
  else some (urls.drop (idx.toNat - 1))

/-- The per-URL loop of `main` (crawler.py lines 557-583).  `tcfg` is
`CRAWLER_TIMEOUT`; `elapsed i` the wall-clock seconds elapsed when the check
before the i-th remaining URL runs; `outcome i` whether the i-th fetch
returns content.  Returns the success list, the failure list, and the
abandoned tail in order. -/
def crawlLoop (tcfg : Nat) (elapsed : Nat → Nat) (outcome : Nat → Bool) :
    List String → Nat → List String × List String × List String
  | [], _ => ([], [], [])
  | url :: rest, i =>
    if 0 < tcfg ∧ tcfg < elapsed i then ([], [], url :: rest)
    else
      let r := crawlLoop tcfg elapsed outcome rest (i + 1)
      if outcome i then (url :: r.1, r.2.1, r.2.2)
      else (r.1, url :: r.2.1, r.2.2)

/-! ## Lemmas about the fetch loop -/

theorem fetchLoop_httpError_all (cfg : Config) (env : Nat → HttpResult) (url : String)
    (s : Nat → Nat) (b : Nat → Option JinaBody) :
    ∀ remaining idx,
      (∀ i, i ≤ remaining → env (idx + i) = .resp (s (idx + i)) (b (idx + i))) →
      (∀ i, i ≤ remaining → 400 ≤ s (idx + i)) →
      fetchLoop cfg env url remaining idx =
        (.failure (.httpError (s (idx + remaining))), retryTrace cfg.noCache remaining) := by
  intro remaining
  induction remaining with
  | zero =>
    intro idx h1 h2
    have e0 := h1 0 (Nat.le_refl 0)
    have s0 := h2 0 (Nat.le_refl 0)
    simp only [Nat.add_zero] at e0 s0 ⊢
    rw [fetchLoop, e0]
    simp [s0, retryTrace]
  | succ n ih =>
    intro idx h1 h2
    have e0 := h1 0 (Nat.zero_le _)
    have s0 := h2 0 (Nat.zero_le _)
    simp only [Nat.add_zero] at e0 s0
    rw [fetchLoop, e0]
    have hrec := ih (idx + 1)
      (fun i hi => by
        rw [show idx + 1 + i = idx + (i + 1) by omega]
        exact h1 (i + 1) (by omega))
      (fun i hi => by
        rw [show idx + 1 + i = idx + (i + 1) by omega]
        exact h2 (i + 1) (by omega))
    simp only [s0, if_pos, hrec]
    rw [show idx + 1 + n = idx + (n + 1) by omega]
    simp [retryTrace]

theorem fetchLoop_resp_ok_step (cfg : Config) (env : Nat → HttpResult) (url : String)
    (remaining idx s : Nat) (b : Option JinaBody)
    (h : env idx = .resp s b) (hs : s < 400) :
    fetchLoop cfg env url remaining idx =
      match b with
      | none => (.failure .invalidResponse, [.request cfg.noCache])
      | some body =>
        if cachedWarn body.warning ∧ cfg.noCache = false then
          (cacheRetry cfg url (env (idx + 1)),
           [.request cfg.noCache, .sleep 1, .request true])
        else (.success (extractRecord cfg url body), [.request cfg.noCache]) := by
  cases b <;> cases remaining <;> (rw [fetchLoop]; simp [h, Nat.not_le.mpr hs])

theorem retryTrace_request_count (nc : Bool) :
    ∀ n, (retryTrace nc n).countP isRequestEvent = n + 1 := by
  intro n
  induction n with
  | zero => simp [retryTrace, isRequestEvent]
  | succ n ih => simp [retryTrace, isRequestEvent, ih, List.countP_cons]

theorem retryTrace_backoff_count (nc : Bool) :
    ∀ n, (retryTrace nc n).countP isBackoffEvent = n := by
  intro n
  induction n with
  | zero => simp [retryTrace, isBackoffEvent]
  | succ n ih => simp [retryTrace, isBackoffEvent, ih, List.countP_cons]

/-! ## Claim theorems: Content Fetcher -/

/-- C2: when every attempt's response has status ≥ 400, the fetcher makes
exactly `retryCount + 1` attempts separated by fixed 2-unit backoffs and
then yields `Failure(HttpError(status))` for the status of the final
attempt; an attempt with status ≥ 400 retries only while attempts remain
(the trace is exactly `retryTrace`, which interleaves one backoff between
consecutive requests and ends on a request). -/
theorem fetch_httpError_exhausts_attempts (cfg : Config) (env : Nat → HttpResult)
    (url : String) (s : Nat → Nat) (b : Nat → Option JinaBody)
    (h1 : ∀ i, i ≤ cfg.retryCount → env i = .resp (s i) (b i))
    (h2 : ∀ i, i ≤ cfg.retryCount → 400 ≤ s i) :
    fetch_with_jina cfg env url =
      (.failure (.httpError (s cfg.retryCount)), retryTrace cfg.noCache cfg.retryCount) ∧
    (fetch_with_jina cfg env url).2.countP isRequestEvent = cfg.retryCount + 1 ∧
    (fetch_with_jina cfg env url).2.countP isBackoffEvent = cfg.retryCount := by
  have key := fetchLoop_httpError_all cfg env url s b cfg.retryCount 0
    (fun i hi => by simpa using h1 i hi)
    (fun i hi => by simpa using h2 i hi)
  simp only [Nat.zero_add] at key
  refine ⟨key, ?_, ?_⟩
  · rw [show fetch_with_jina cfg env url = fetchLoop cfg env url cfg.retryCount 0 from rfl,
      key]
    exact retryTrace_request_count cfg.noCache cfg.retryCount
  · rw [show fetch_with_jina cfg env url = fetchLoop cfg env url cfg.retryCount 0 from rfl,
      key]
    exact retryTrace_backoff_count cfg.noCache cfg.retryCount

/-- Witness for C2: the spec's scenario — 503 on both attempts with
`retryCount = 1` gives `Failure(HttpError(503))` after 2 attempts and one
2-unit backoff. -/
theorem fetch_httpError_exhausts_attempts_witness :
    fetch_with_jina ⟨true, false, 1⟩ (fun _ => .resp 503 none) "https://a.com/x" =
      (.failure (.httpError 503), [.request false, .sleep 2, .request false]) :=
  (fetch_httpError_exhausts_attempts ⟨true, false, 1⟩ (fun _ => .resp 503 none)
    "https://a.com/x" (fun _ => 503) (fun _ => none)
    (fun _ _ => rfl) (fun _ _ => by norm_num)).1

/-- C4: a response with status < 400 whose body fails to parse as JSON makes
the whole fetch yield `Failure(InvalidResponse)` at once: the trace holds a
single request, with no backoff and no further attempt, for every
`retryCount`. -/
theorem fetch_invalid_json_terminal (cfg : Config) (env : Nat → HttpResult)
    (url : String) (s : Nat)
    (h0 : env 0 = .resp s none) (hs : s < 400) :
    fetch_with_jina cfg env url = (.failure .invalidResponse, [.request cfg.noCache]) := by
  rw [show fetch_with_jina cfg env url = fetchLoop cfg env url cfg.retryCount 0 from rfl,
    fetchLoop_resp_ok_step cfg env url cfg.retryCount 0 s none h0 hs]

/-- Witness for C4: with a 2-attempt budget remaining, a non-JSON 200
response still ends the fetch after one request. -/
theorem fetch_invalid_json_terminal_witness :
    fetch_with_jina ⟨true, false, 2⟩ (fun _ => .resp 200 none) "https://a.com/x" =
      (.failure .invalidResponse, [.request false]) :=
  fetch_invalid_json_terminal ⟨true, false, 2⟩ (fun _ => .resp 200 none)
    "https://a.com/x" 200 rfl (by omega)

/-- C3 (amended): on a clean (non-stale) parsed body the fetcher succeeds
with `title`, `content` and the resolved URL (defaulting to the requested
URL) from the nested content object; `description` is extracted
unconditionally from the content object; only the `lang` value is gated on
the compliance flag, and under the restricted endpoint the record's language
(but not its description) is empty. -/
theorem fetch_clean_extraction (cfg : Config) (env : Nat → HttpResult)
    (url : String) (s : Nat) (body : JinaBody)
    (h0 : env 0 = .resp s (some body)) (hs : s < 400)
    (hclean : cachedWarn body.warning = false ∨ cfg.noCache = true) :
    fetch_with_jina cfg env url =
      (.success (extractRecord cfg url body), [.request cfg.noCache]) ∧
    (extractRecord cfg url body).title = body.data.title ∧
    (extractRecord cfg url body).markdownBody = body.data.content ∧
    (extractRecord cfg url body).resolvedUrl = body.data.url.getD url ∧
    (extractRecord cfg url body).description = body.data.description ∧
    (cfg.euCompliance = true → (extractRecord cfg url body).language = "") ∧
    (cfg.euCompliance = false → (extractRecord cfg url body).language = body.data.lang) := by
  refine ⟨?_, rfl, rfl, rfl, rfl, ?_, ?_⟩
  · rw [show fetch_with_jina cfg env url = fetchLoop cfg env url cfg.retryCount 0 from rfl,
      fetchLoop_resp_ok_step cfg env url cfg.retryCount 0 s (some body) h0 hs]
    have hcond : ¬(cachedWarn body.warning = true ∧ cfg.noCache = false) := by
      rcases hclean with h | h
      · simp [h]
      · simp [h]
    simp [hcond]
  · intro h; simp [extractRecord, h]
  · intro h; simp [extractRecord, h]

/-- Witness for C3 (amended): a clean 200 body under the non-restricted
endpoint, with a resolved URL present, extracts every field. -/
theorem fetch_clean_extraction_witness :
    fetch_with_jina ⟨false, false, 2⟩
        (fun _ => .resp 200 (some ⟨"", ⟨"T", "C", some "https://r/x", "D", "fr"⟩⟩))
        "https://a.com/x" =
      (.success ⟨"T", "C", "https://r/x", "D", "fr"⟩, [.request false]) :=
  (fetch_clean_extraction ⟨false, false, 2⟩
    (fun _ => .resp 200 (some ⟨"", ⟨"T", "C", some "https://r/x", "D", "fr"⟩⟩))
    "https://a.com/x" 200 ⟨"", ⟨"T", "C", some "https://r/x", "D", "fr"⟩⟩
    rfl (by omega) (Or.inl (by decide))).1

/-- C3 counterexample: under the restricted (compliance) endpoint the
fetcher still extracts a non-empty `description` from the response — the
resulting record's description is `"D"`, not `""`, so the claim that
description is extracted only on the non-restricted endpoint is false. -/
theorem fetch_description_not_gated_cex :
    (fetch_with_jina ⟨true, true, 0⟩
        (fun _ => .resp 200 (some ⟨"", ⟨"T", "C", some "https://r/x", "D", "fr"⟩⟩))
        "https://a.com/x").1 =
      .success ⟨"T", "C", "https://r/x", "D", ""⟩ ∧
    ("D" : String) ≠ "" := by
  constructor
  · decide
  · decide

/-- C7 counterexample: on a sitemap target, a failed GET, a malformed XML
body and a successfully parsed sitemap with no `loc` entries all return the
very same empty list — the failures are not distinct from the empty-sitemap
case — and the orchestrator aborts on the empty-sitemap result exactly as it
does on the failures. -/
theorem sitemap_failures_indistinct_cex :
    get_urls_from_sitemap "https://e.com/sitemap.xml" .netFailure =
      get_urls_from_sitemap "https://e.com/sitemap.xml" (.ok (some [])) ∧
    get_urls_from_sitemap "https://e.com/sitemap.xml" (.ok none) =
      get_urls_from_sitemap "https://e.com/sitemap.xml" (.ok (some [])) ∧
    get_urls_from_sitemap "https://e.com/sitemap.xml" .netFailure = [] ∧
    runAbortsOnUrls (get_urls_from_sitemap "https://e.com/sitemap.xml" .netFailure) = true ∧
    runAbortsOnUrls (get_urls_from_sitemap "https://e.com/sitemap.xml" (.ok (some []))) = true := by
  decide

/-- C7 (amended): for a sitemap target, a GET that does not complete
successfully and a malformed XML body both make the resolver return the
empty list — the source prints the error and returns `[]` rather than
raising distinct `NetworkError`/`ParseError` values — which makes the run
abort before any fetch; a successfully parsed sitemap yields its trimmed
non-empty `loc` texts in document order, and when there are none it returns
the same empty list, aborting the run identically. -/
theorem sitemap_failures_return_empty (target : String)
    (hx : pyEndswith target ".xml" = true) :
    get_urls_from_sitemap target .netFailure = [] ∧
    get_urls_from_sitemap target (.ok none) = [] ∧
    (∀ locs, get_urls_from_sitemap target (.ok (some locs)) =
      locs.filterMap fun o =>
        match o with
        | none => none
        | some t => if t = "" then none else some (pyStrip t)) ∧
    (∀ f, runAbortsOnUrls (get_urls_from_sitemap target f) = true ↔
      get_urls_from_sitemap target f = []) ∧
    runAbortsOnUrls (get_urls_from_sitemap target .netFailure) = true := by
  refine ⟨?_, ?_, ?_, ?_, ?_⟩ <;>
    simp [get_urls_from_sitemap, hx, runAbortsOnUrls, List.isEmpty_iff]

/-- Witness for C7 (amended): a concrete sitemap URL with a failed GET
aborts with the empty list, and a parsed sitemap with entries resolves them
in order. -/
theorem sitemap_failures_return_empty_witness :
    get_urls_from_sitemap "https://e.com/sitemap.xml" .netFailure = [] ∧
    get_urls_from_sitemap "https://e.com/sitemap.xml"
        (.ok (some [some "  https://a  ", none, some "", some "https://b"])) =
      ["https://a", "https://b"] := by
  refine ⟨(sitemap_failures_return_empty "https://e.com/sitemap.xml" (by decide)).1, ?_⟩
  rw [(sitemap_failures_return_empty "https://e.com/sitemap.xml" (by decide)).2.2.1
    [some "  https://a  ", none, some "", some "https://b"]]
  decide

theorem drop_length_pred {α : Type} : ∀ (l : List α) (h : l ≠ []),
    l.drop (l.length - 1) = [l.getLast h]
  | [x], _ => rfl
  | x :: y :: t, _ => by
    have ih := drop_length_pred (y :: t) (by simp)
    simp only [List.length_cons, Nat.add_sub_cancel] at ih ⊢
    rw [List.drop_succ_cons]
    rw [show (y :: t).getLast (by simp) = (x :: y :: t).getLast (by simp) from
      (List.getLast_cons (by simp)).symm] at ih
    simpa using ih

/-- C9: with a non-empty resolved URL list, a start index of 1 keeps all
URLs, a start index equal to the list length keeps exactly the last URL, and
a start index below 1 or above the list length aborts the run (no URL list
is produced, so no fetch is attempted). -/
theorem start_index_selection (urls : List String) (h : urls ≠ []) :
    applyStartIndex 1 urls = some urls ∧
    applyStartIndex (urls.length : Int) urls = some [urls.getLast h] ∧
    (∀ i : Int, i < 1 → applyStartIndex i urls = none) ∧
    (∀ i : Int, (urls.length : Int) < i → applyStartIndex i urls = none) := by
  have hlen : 1 ≤ urls.length := by
    cases urls with
    | nil => exact absurd rfl h
    | cons a l => simp
  refine ⟨?_, ?_, ?_, ?_⟩
  · rw [applyStartIndex, if_neg (by omega), if_neg (by omega)]
    simp
  · rw [applyStartIndex, if_neg (by omega), if_neg (by omega)]
    rw [show ((urls.length : Int)).toNat = urls.length from rfl]
    rw [drop_length_pred urls h]
  · intro i hi
    rw [applyStartIndex, if_pos hi]
  · intro i hi
    rw [applyStartIndex, if_neg (by omega), if_pos hi]

/-- Witness for C9: on a three-element list, index 1 keeps all three, index 3
keeps only the last, and indices 0 and 4 abort. -/
theorem start_index_selection_witness :
    applyStartIndex 1 ["a", "b", "c"] = some ["a", "b", "c"] ∧
    applyStartIndex 3 ["a", "b", "c"] = some ["c"] ∧
    applyStartIndex 0 ["a", "b", "c"] = none ∧
    applyStartIndex 4 ["a", "b", "c"] = none := by
  have h := start_index_selection ["a", "b", "c"] (by decide)
  exact ⟨h.1, h.2.1, h.2.2.1 0 (by decide), h.2.2.2 4 (by decide)⟩

theorem crawlLoop_partition (tcfg : Nat) (elapsed : Nat → Nat) (outcome : Nat → Bool) :
    ∀ (urls : List String) (i : Nat), urls.Nodup →
      (crawlLoop tcfg elapsed outcome urls i).1 ⊆ urls ∧
      (crawlLoop tcfg elapsed outcome urls i).2.1 ⊆ urls ∧
      (crawlLoop tcfg elapsed outcome urls i).2.2.IsSuffix urls ∧
      (crawlLoop tcfg elapsed outcome urls i).1.length +
        (crawlLoop tcfg elapsed outcome urls i).2.1.length +
        (crawlLoop tcfg elapsed outcome urls i).2.2.length = urls.length ∧
      (∀ u, u ∈ (crawlLoop tcfg elapsed outcome urls i).1 →
        u ∉ (crawlLoop tcfg elapsed outcome urls i).2.1) ∧
      (∀ u, u ∈ (crawlLoop tcfg elapsed outcome urls i).2.2 →
        u ∉ (crawlLoop tcfg elapsed outcome urls i).1 ∧
        u ∉ (crawlLoop tcfg elapsed outcome urls i).2.1) := by
  intro urls
  induction urls with
  | nil =>
    intro i _
    refine ⟨by simp [crawlLoop], by simp [crawlLoop], ?_, by simp [crawlLoop], ?_, ?_⟩
    · simp [crawlLoop]
    · intro u hu; simp [crawlLoop] at hu
    · intro u hu; simp [crawlLoop] at hu
  | cons url rest ih =>
    intro i hnd
    have hurl : url ∉ rest := (List.nodup_cons.mp hnd).1
    have ihr := ih (i + 1) (List.nodup_cons.mp hnd).2
    rw [crawlLoop]
    by_cases ht : 0 < tcfg ∧ tcfg < elapsed i
    · rw [if_pos ht]
      refine ⟨by simp, by simp, List.suffix_refl _, by simp, ?_, ?_⟩
      · intro u hu; simp at hu
      · intro u _; simp
    · rw [if_neg ht]
      obtain ⟨hs, hf, ha, hlen, hdis, hab⟩ := ihr
      have hasub : (crawlLoop tcfg elapsed outcome rest (i + 1)).2.2 ⊆ rest :=
        ha.subset
      by_cases ho : outcome i = true
      · rw [if_pos ho]
        refine ⟨?_, ?_, ?_, ?_, ?_, ?_⟩
        · exact List.cons_subset_cons url hs |>.trans (by simp)
        · exact hf.trans (List.subset_cons_self _ _)
        · exact ha.trans (List.suffix_cons _ _)
        · simpa using by omega
        · intro u hu
          rcases List.mem_cons.mp hu with rfl | hu
          · exact fun hc => hurl (hf hc)
          · exact hdis u hu
        · intro u hu
          refine ⟨?_, (hab u hu).2⟩
          intro hc
          rcases List.mem_cons.mp hc with rfl | hc
          · exact hurl (hasub hu)
          · exact (hab u hu).1 hc
      · rw [if_neg ho]
        refine ⟨?_, ?_, ?_, ?_, ?_, ?_⟩
        · exact hs.trans (List.subset_cons_self _ _)
        · exact List.cons_subset_cons url hf |>.trans (by simp)
        · exact ha.trans (List.suffix_cons _ _)
        · simpa using by omega
        · intro u hu
          intro hc
          rcases List.mem_cons.mp hc with rfl | hc
          · exact hurl (hs hu)
          · exact hdis u hu hc
        · intro u hu
          refine ⟨(hab u hu).1, ?_⟩
          intro hc
          rcases List.mem_cons.mp hc with rfl | hc
          · exact hurl (hasub hu)
          · exact (hab u hu).2 hc

/-- C6 counterexample: when the input list contains the same URL twice and
the fetch succeeds on the first pass but fails on the second, that URL is
appended to both lists, so the success and failure lists of such a run are
not disjoint as the claim states for every run. -/
theorem crawl_duplicate_url_cex :
    "u" ∈ (crawlLoop 0 (fun _ => 0) (fun i => i == 0) ["u", "u"] 0).1 ∧
    "u" ∈ (crawlLoop 0 (fun _ => 0) (fun i => i == 0) ["u", "u"] 0).2.1 := by
  decide

/-- C6: in one run over a duplicate-free URL list, every processed URL lands
in exactly one of the success and failure lists: the two lists are disjoint,
their lengths sum to the input length minus the timeout-abandoned tail, and
the URLs abandoned by the wall-clock deadline (checked before each URL) form
a suffix of the input appearing in neither list. -/
theorem crawl_success_failure_partition (tcfg : Nat) (elapsed : Nat → Nat)
    (outcome : Nat → Bool) (urls : List String) (hnd : urls.Nodup) :
    (∀ u, u ∈ (crawlLoop tcfg elapsed outcome urls 0).1 →
      u ∉ (crawlLoop tcfg elapsed outcome urls 0).2.1) ∧
    (crawlLoop tcfg elapsed outcome urls 0).1.length +
      (crawlLoop tcfg elapsed outcome urls 0).2.1.length =
      urls.length - (crawlLoop tcfg elapsed outcome urls 0).2.2.length ∧
    (crawlLoop tcfg elapsed outcome urls 0).2.2.IsSuffix urls ∧
    (∀ u, u ∈ (crawlLoop tcfg elapsed outcome urls 0).2.2 →
      u ∉ (crawlLoop tcfg elapsed outcome urls 0).1 ∧
      u ∉ (crawlLoop tcfg elapsed outcome urls 0).2.1) := by
  obtain ⟨_, _, ha, hlen, hdis, hab⟩ := crawlLoop_partition tcfg elapsed outcome urls 0 hnd
  exact ⟨hdis, by omega, ha, hab⟩

/-- Witness for C6: a run that times out before its third URL (elapsed 14 >
budget 10) succeeds on one URL, fails one, and abandons the other two, which
satisfy the partition equation `1 + 1 = 4 - 2`. -/
theorem crawl_success_failure_partition_witness :
    (crawlLoop 10 (fun i => i * 7) (fun i => i % 2 == 0) ["a", "b", "c", "d"] 0).1.length +
      (crawlLoop 10 (fun i => i * 7) (fun i => i % 2 == 0) ["a", "b", "c", "d"] 0).2.1.length =
      (["a", "b", "c", "d"] : List String).length -
        (crawlLoop 10 (fun i => i * 7) (fun i => i % 2 == 0) ["a", "b", "c", "d"] 0).2.2.length :=
  (crawl_success_failure_partition 10 (fun i => i * 7) (fun i => i % 2 == 0)
    ["a", "b", "c", "d"] (by decide)).2.1

/-! ## Claim theorems: Duplicate Classifier -/

theorem safe_title_bounds (t : String) :
    safe_title t ≠ "" ∧ (safe_title t).length ≤ 50 := by
  rw [safe_title]
  set s2 := (collapseRuns (stripWhile isPySpace (t.toList.filter keepTitleChar))).map lowerChar
    with hs2
  by_cases h50 : 50 < s2.length
  · rw [if_pos h50]
    by_cases hnil : s2.take 50 = []
    · rw [if_pos hnil]; exact ⟨by decide, by decide⟩
    · rw [if_neg hnil]
      refine ⟨?_, ?_⟩
      · intro hc
        exact hnil (congrArg String.toList hc)
      · show (s2.take 50).length ≤ 50
        simp
  · rw [if_neg h50]
    by_cases hnil : s2 = []
    · rw [if_pos hnil]; exact ⟨by decide, by decide⟩
    · rw [if_neg hnil]
      refine ⟨?_, ?_⟩
      · intro hc
        exact hnil (congrArg String.toList hc)
      · show s2.length ≤ 50
        omega

theorem kept_titles_unique (fs : List FileEntry) :
    ∀ f ∈ (analyze_duplicates fs).kept,
      titleCount (analyze_duplicates fs).kept f.title ≤ 1 := by
  intro f hf
  have hmem := List.mem_filter.mp hf
  have hcount : titleCount fs f.title ≤ 1 := of_decide_eq_true hmem.2
  calc titleCount (analyze_duplicates fs).kept f.title
      = fs.countP (fun g => (g.title == f.title) &&
          decide (titleCount fs g.title ≤ 1)) := by
        rw [show (analyze_duplicates fs).kept =
          fs.filter (fun g => decide (titleCount fs g.title ≤ 1)) from rfl]
        exact List.countP_filter _ _ _
    _ ≤ fs.countP (fun g => g.title == f.title) := by
        apply List.countP_mono_left
        intro a _ ha
        exact (Bool.and_elim_left ha)
    _ = titleCount fs f.title := rfl
    _ ≤ 1 := hcount

/-- C8: every member (including the first) of each group of files sharing an
exact title is relocated into the subfolder named by `safe_title` (the
lowercased, stripped, run-collapsed, 50-truncated, never-empty name), groups
of size one stay in place, and one pass removes all duplicate titles from
the top level, so a second pass relocates nothing and leaves the directory
unchanged. -/
theorem duplicate_classifier_moves_all_and_idempotent (fs : List FileEntry) :
    (∀ f, f ∈ fs → 2 ≤ titleCount fs f.title →
      (safe_title f.title, f) ∈ (analyze_duplicates fs).moved ∧
      f ∉ (analyze_duplicates fs).kept) ∧
    (∀ f, f ∈ fs → titleCount fs f.title ≤ 1 →
      f ∈ (analyze_duplicates fs).kept) ∧
    (analyze_duplicates (analyze_duplicates fs).kept).moved = [] ∧
    (analyze_duplicates (analyze_duplicates fs).kept).kept =
      (analyze_duplicates fs).kept ∧
    (∀ t, safe_title t ≠ "" ∧ (safe_title t).length ≤ 50) := by
  refine ⟨?_, ?_, ?_, ?_, safe_title_bounds⟩
  · intro f hf hc
    constructor
    · refine List.mem_map.mpr ⟨f, ?_, rfl⟩
      exact List.mem_filter.mpr ⟨hf, decide_eq_true hc⟩
    · intro hk
      have := of_decide_eq_true (List.mem_filter.mp hk).2
      omega
  · intro f hf hc
    exact List.mem_filter.mpr ⟨hf, decide_eq_true hc⟩
  · rw [show (analyze_duplicates (analyze_duplicates fs).kept).moved =
      ((analyze_duplicates fs).kept.filter (fun g =>
        decide (2 ≤ titleCount (analyze_duplicates fs).kept g.title))).map
        (fun g => (safe_title g.title, g)) from rfl]
    rw [List.filter_eq_nil_iff.mpr]
    · rfl
    · intro a ha
      have := kept_titles_unique fs a ha
      simp only [decide_eq_true_eq]
      omega
  · rw [show (analyze_duplicates (analyze_duplicates fs).kept).kept =
      (analyze_duplicates fs).kept.filter (fun g =>
        decide (titleCount (analyze_duplicates fs).kept g.title ≤ 1)) from rfl]
    apply List.filter_eq_self.mpr
    intro a ha
    exact decide_eq_true (kept_titles_unique fs a ha)

/-- Witness for C8: with titles `A`, `A`, `B`, both `A` files (including the
first) are relocated into the `a` subfolder, and a second pass over the
remaining top level relocates nothing. -/
theorem duplicate_classifier_witness :
    ("a", (⟨"f1", "A"⟩ : FileEntry)) ∈
      (analyze_duplicates [⟨"f1", "A"⟩, ⟨"f2", "A"⟩, ⟨"f3", "B"⟩]).moved ∧
    (analyze_duplicates
      (analyze_duplicates [⟨"f1", "A"⟩, ⟨"f2", "A"⟩, ⟨"f3", "B"⟩]).kept).moved = [] := by
  have h := duplicate_classifier_moves_all_and_idempotent
    [⟨"f1", "A"⟩, ⟨"f2", "A"⟩, ⟨"f3", "B"⟩]
  refine ⟨?_, h.2.2.1⟩
  have hm := (h.1 ⟨"f1", "A"⟩ (by decide) (by decide)).1
  rw [show safe_title "A" = "a" from by decide] at hm
  exact hm

/-! ## Generic lemmas about the string primitive models -/

theorem toList_append (s t : String) : (s ++ t).toList = s.toList ++ t.toList := rfl

theorem toList_mk (l : List Char) : (String.mk l).toList = l := rfl

theorem mk_toList (s : String) : String.mk s.toList = s := rfl

theorem isPrefixList_append_self : ∀ p r : List Char, isPrefixList p (p ++ r) = true
  | [], _ => rfl
  | c :: p, r => by simp [isPrefixList, isPrefixList_append_self p r]

theorem isPrefixList_length_le : ∀ p l : List Char, isPrefixList p l = true →
    p.length ≤ l.length
  | [], _, _ => Nat.zero_le _
  | a :: p, [], h => by simp [isPrefixList] at h
  | a :: p, b :: l, h => by
    simp only [isPrefixList, Bool.and_eq_true] at h
    have := isPrefixList_length_le p l h.2
    simp only [List.length_cons]
    omega

theorem isPrefixList_append_stable : ∀ (p l t : List Char), p.length ≤ l.length →
    isPrefixList p (l ++ t) = isPrefixList p l
  | [], _, _, _ => rfl
  | a :: p, [], t, h => by simp at h
  | a :: p, b :: l, t, h => by
    show (a == b && isPrefixList p (l ++ t)) = (a == b && isPrefixList p l)
    rw [isPrefixList_append_stable p l t (by simp at h; omega)]

theorem splitFirstOn_some_length (pat : List Char) : ∀ l a b,
    splitFirstOn pat l = some (a, b) → pat.length ≤ l.length
  | [], a, b, h => by simp [splitFirstOn] at h
  | c :: rest, a, b, h => by
    rw [splitFirstOn] at h
    by_cases hp : isPrefixList pat (c :: rest) = true
    · exact isPrefixList_length_le pat (c :: rest) hp
    · rw [if_neg hp] at h
      cases hrec : splitFirstOn pat rest with
      | none => rw [hrec] at h; exact absurd h (by simp)
      | some pr =>
        have := splitFirstOn_some_length pat rest pr.1 pr.2 (by rw [hrec])
        simp only [List.length_cons]
        omega

theorem splitFirstOn_append (pat : List Char) : ∀ l t a b,
    splitFirstOn pat l = some (a, b) →
    splitFirstOn pat (l ++ t) = some (a, b ++ t)
  | [], t, a, b, h => by simp [splitFirstOn] at h
  | c :: rest, t, a, b, h => by
    rw [splitFirstOn] at h
    by_cases hp : isPrefixList pat (c :: rest) = true
    · rw [if_pos hp] at h
      simp only [Option.some.injEq, Prod.mk.injEq] at h
      obtain ⟨h1, h2⟩ := h
      subst h1; subst h2
      have hlen := isPrefixList_length_le pat (c :: rest) hp
      have hstable : isPrefixList pat (c :: (rest ++ t)) = true := by
        rw [show c :: (rest ++ t) = (c :: rest) ++ t from rfl,
          isPrefixList_append_stable pat (c :: rest) t hlen]
        exact hp
      rw [List.cons_append, splitFirstOn, if_pos hstable]
      rw [show c :: (rest ++ t) = (c :: rest) ++ t from rfl,
        List.drop_append_of_le_length hlen]
    · rw [if_neg hp] at h
      cases hrec : splitFirstOn pat rest with
      | none => rw [hrec] at h; exact absurd h (by simp)
      | some pr =>
        obtain ⟨pre, post⟩ := pr
        rw [hrec] at h
        simp only [Option.some.injEq, Prod.mk.injEq] at h
        obtain ⟨h1, h2⟩ := h
        subst h1; subst h2
        have hlen : pat.length ≤ rest.length :=
          splitFirstOn_some_length pat rest pre post hrec
        have hstable : ¬ isPrefixList pat (c :: (rest ++ t)) = true := by
          rw [show c :: (rest ++ t) = (c :: rest) ++ t from rfl,
            isPrefixList_append_stable pat (c :: rest) t (by simp; omega)]
          exact hp
        rw [List.cons_append, splitFirstOn, if_neg hstable,
          splitFirstOn_append pat rest t pre post hrec]

theorem replaceGo_fuel : ∀ (pat rep : List Char) (f₁ f₂ : Nat) (l : List Char),
    l.length ≤ f₁ → l.length ≤ f₂ →
    replaceGo pat rep f₁ l = replaceGo pat rep f₂ l
  | _, _, _, _, [], _, _ => by simp [replaceGo]
  | pat, rep, 0, f₂, c :: rest, h1, h2 => by simp at h1
  | pat, rep, f + 1, 0, c :: rest, h1, h2 => by simp at h2
  | pat, rep, f + 1, g + 1, c :: rest, h1, h2 => by
    rw [replaceGo, replaceGo]
    by_cases hc : pat ≠ [] ∧ isPrefixList pat (c :: rest) = true
    · rw [if_pos hc, if_pos hc]
      rw [replaceGo_fuel pat rep f g (rest.drop (pat.length - 1))
        (by simp only [List.length_drop]; simp at h1; omega)
        (by simp only [List.length_drop]; simp at h2; omega)]
    · rw [if_neg hc, if_neg hc]
      rw [replaceGo_fuel pat rep f g rest (by simp at h1; omega) (by simp at h2; omega)]

theorem replaceList_nomatch (pat rep : List Char) : ∀ l,
    containsList pat l = false → replaceList pat rep l = l := by
  intro l
  induction l with
  | nil => intro _; rfl
  | cons c rest ih =>
    intro h
    simp only [containsList, Bool.or_eq_false_iff] at h
    rw [replaceList, List.length_cons, replaceGo, if_neg (by simp [h.1])]
    rw [show replaceGo pat rep rest.length rest = replaceList pat rep rest from rfl,
      ih h.2]

theorem replaceList_head_match (pat rep t : List Char) (hp : pat ≠ []) :
    replaceList pat rep (pat ++ t) = rep ++ replaceList pat rep t := by
  cases pat with
  | nil => exact absurd rfl hp
  | cons p ps =>
    rw [replaceList, show ((p :: ps) ++ t).length = (ps.length + t.length) + 1 by
      simp]
    rw [show (p :: ps) ++ t = p :: (ps ++ t) from rfl, replaceGo,
      if_pos ⟨hp, by exact isPrefixList_append_self (p :: ps) t⟩]
    rw [show (p :: ps).length - 1 = ps.length by simp]
    rw [List.drop_left ps t]
    rw [replaceGo_fuel (p :: ps) rep (ps.length + t.length) t.length t
      (by omega) (Nat.le_refl _)]
    rfl

theorem splitOnChar_ne_nil (sep : Char) : ∀ l, splitOnChar sep l ≠ []
  | [] => by simp [splitOnChar]
  | c :: rest => by
    rw [splitOnChar]
    by_cases h : c = sep
    · simp [h]
    · rw [if_neg h]
      cases hrec : splitOnChar sep rest with
      | nil => simp
      | cons a b => simp

theorem splitOnChar_append_sep (sep : Char) : ∀ (xs ys : List Char),
    (∀ c ∈ xs, ¬ c = sep) →
    splitOnChar sep (xs ++ sep :: ys) = xs :: splitOnChar sep ys
  | [], ys, _ => by simp [splitOnChar]
  | x :: xs, ys, h => by
    rw [List.cons_append, splitOnChar, if_neg (h x (by simp)),
      splitOnChar_append_sep sep xs ys (fun c hc => h c (by simp [hc]))]

theorem joinChar_splitOnChar (sep : Char) : ∀ l,
    joinChar sep (splitOnChar sep l) = l
  | [] => rfl
  | c :: rest => by
    rw [splitOnChar]
    by_cases h : c = sep
    · rw [if_pos h]
      cases hrec : splitOnChar sep rest with
      | nil => exact absurd hrec (splitOnChar_ne_nil sep rest)
      | cons a b =>
        rw [joinChar]
        have := joinChar_splitOnChar sep rest
        rw [hrec] at this
        rw [this, h]
        rfl
    · rw [if_neg h]
      cases hrec : splitOnChar sep rest with
      | nil => exact absurd hrec (splitOnChar_ne_nil sep rest)
      | cons a b =>
        have := joinChar_splitOnChar sep rest
        rw [hrec] at this
        cases b with
        | nil => rw [joinChar] at this ⊢; rw [this]
        | cons b1 b2 =>
          rw [joinChar] at this ⊢
          rw [List.cons_append, this]

theorem guard_false {b : Bool} (h : b = false) : ¬ b = true := by simp [h]

theorem splitOnChar_cons_sep (sep : Char) (ys : List Char) :
    splitOnChar sep (sep :: ys) = [] :: splitOnChar sep ys := by
  rw [splitOnChar]
  simp

theorem splitOnChar_two_append (sep : Char) (xs₁ xs₂ ys : List Char)
    (h1 : ∀ ch ∈ xs₁, ¬ ch = sep) (h2 : ∀ ch ∈ xs₂, ¬ ch = sep) :
    splitOnChar sep (xs₁ ++ (xs₂ ++ sep :: ys)) = (xs₁ ++ xs₂) :: splitOnChar sep ys := by
  rw [← List.append_assoc]
  refine splitOnChar_append_sep sep (xs₁ ++ xs₂) ys ?_
  intro ch hch
  rcases List.mem_append.mp hch with h | h
  · exact h1 ch h
  · exact h2 ch h

theorem strip_replace_header (pre x : String) (hp : pre.toList ≠ [])
    (hx : containsList pre.toList x.toList = false) (hs : pyStrip x = x) :
    pyStrip (pyReplace (String.mk (pre.toList ++ x.toList)) pre "") = x := by
  have key : replaceList pre.toList ([] : List Char) (pre.toList ++ x.toList) = x.toList := by
    rw [replaceList_head_match pre.toList [] x.toList hp,
      replaceList_nomatch pre.toList [] x.toList hx, List.nil_append]
  have key2 : replaceList pre.data ([] : List Char) (pre.data ++ x.toList) = x.toList := key
  show pyStrip (String.mk (replaceList pre.data ([] : List Char) (pre.data ++ x.toList))) = x
  rw [key2, mk_toList]
  exact hs

theorem takeWhile_append_stop (q : Char → Bool) (x : Char) (hx : q x = false)
    (l : List Char) : (l ++ [x]).takeWhile q = l.takeWhile q := by
  rw [List.takeWhile_append]
  by_cases h : (l.takeWhile q).length = l.length
  · rw [if_pos h]
    have heq := (List.takeWhile_prefix (l := l) q).eq_of_length h
    rw [show ([x].takeWhile q) = [] by simp [List.takeWhile_cons, hx],
      List.append_nil, heq]
  · rw [if_neg h]

theorem takeWhile_all (q : Char → Bool) : ∀ l : List Char,
    (∀ ch ∈ l, q ch = true) → l.takeWhile q = l
  | [], _ => rfl
  | c :: rest, h => by
    rw [List.takeWhile_cons, if_pos (h c (by simp)),
      takeWhile_all q rest (fun ch hch => h ch (by simp [hch]))]

theorem stripWhile_append_stop (p : Char → Bool) (x : Char) (hx : p x = true)
    (l : List Char) : stripWhile p (l ++ [x]) = stripWhile p l := by
  rw [stripWhile, stripWhile, List.dropWhile_append]
  by_cases h : (l.dropWhile p).isEmpty
  · rw [if_pos h]
    rw [show (l.dropWhile p) = [] from List.isEmpty_iff.mp h]
    simp [List.dropWhile_cons, hx]
  · rw [if_neg h]
    rw [List.reverse_append]
    simp only [List.reverse_cons, List.reverse_nil, List.nil_append,
      List.singleton_append, List.dropWhile_cons, hx]
    simp

theorem formatted_content_lines (t u d lg c : String)
    (htn : ∀ ch ∈ t.toList, ¬ ch = '\n') (hun : ∀ ch ∈ u.toList, ¬ ch = '\n')
    (hdn : ∀ ch ∈ d.toList, ¬ ch = '\n') (hln : ∀ ch ∈ lg.toList, ¬ ch = '\n') :
    splitOnChar '\n' (formatted_content t u d lg c).toList =
      [("Title: ".toList ++ t.toList), [], ("URL Source: ".toList ++ u.toList), [],
       ("Description: ".toList ++ d.toList), [], ("Language: ".toList ++ lg.toList), [],
       "Markdown Content:".toList] ++ splitOnChar '\n' c.toList := by
  have hT : ∀ ch ∈ ("Title: " : String).toList, ¬ ch = '\n' := by decide
  have hU : ∀ ch ∈ ("URL Source: " : String).toList, ¬ ch = '\n' := by decide
  have hD : ∀ ch ∈ ("Description: " : String).toList, ¬ ch = '\n' := by decide
  have hL : ∀ ch ∈ ("Language: " : String).toList, ¬ ch = '\n' := by decide
  have hM : ∀ ch ∈ ("Markdown Content:" : String).toList, ¬ ch = '\n' := by decide
  rw [formatted_content]
  simp only [toList_append]
  rw [show ("\n\nURL Source: " : String).toList =
        '\n' :: '\n' :: ("URL Source: " : String).toList from rfl,
    show ("\n\nDescription: " : String).toList =
        '\n' :: '\n' :: ("Description: " : String).toList from rfl,
    show ("\n\nLanguage: " : String).toList =
        '\n' :: '\n' :: ("Language: " : String).toList from rfl,
    show ("\n\nMarkdown Content:\n" : String).toList =
        '\n' :: '\n' :: (("Markdown Content:" : String).toList ++ ['\n']) from rfl]
  simp only [List.append_assoc, List.cons_append, List.nil_append, List.singleton_append]
  rw [splitOnChar_two_append '\n' _ _ _ hT htn, splitOnChar_cons_sep,
    splitOnChar_two_append '\n' _ _ _ hU hun, splitOnChar_cons_sep,
    splitOnChar_two_append '\n' _ _ _ hD hdn, splitOnChar_cons_sep,
    splitOnChar_two_append '\n' _ _ _ hL hln, splitOnChar_cons_sep,
    splitOnChar_append_sep '\n' _ _ hM]

/-- C10 (amended): the fetcher-to-writer hand-off is the formatted blob of
crawler.py line 177 and the writer's line-by-line re-parse recovers the
fields exactly, provided the four header fields contain no newline, carry no
surrounding whitespace, and do not contain their own header label
(`"Title: "`, `"URL Source: "`, `"Description: "`, `"Language: "`
respectively) as a substring; the markdown body is recovered
whitespace-stripped. -/
theorem formatted_roundtrip (t u d lg c : String)
    (hts : pyStrip t = t) (hus : pyStrip u = u)
    (hds : pyStrip d = d) (hls : pyStrip lg = lg)
    (htn : ∀ ch ∈ t.toList, ¬ ch = '\n') (hun : ∀ ch ∈ u.toList, ¬ ch = '\n')
    (hdn : ∀ ch ∈ d.toList, ¬ ch = '\n') (hln : ∀ ch ∈ lg.toList, ¬ ch = '\n')
    (hti : pyContains t "Title: " = false)
    (hui : pyContains u "URL Source: " = false)
    (hdi : pyContains d "Description: " = false)
    (hli : pyContains lg "Language: " = false) :
    save_markdown_parse (formatted_content t u d lg c) =
      ⟨t, u, d, lg, pyStrip c⟩ := by
  rw [save_markdown_parse, pySplitOn,
    formatted_content_lines t u d lg c htn hun hdn hln, List.map_append]
  rw [show List.map String.mk
      [("Title: ".toList ++ t.toList), [], ("URL Source: ".toList ++ u.toList), [],
       ("Description: ".toList ++ d.toList), [], ("Language: ".toList ++ lg.toList), [],
       "Markdown Content:".toList] =
      [String.mk ("Title: ".toList ++ t.toList), "",
       String.mk ("URL Source: ".toList ++ u.toList), "",
       String.mk ("Description: ".toList ++ d.toList), "",
       String.mk ("Language: ".toList ++ lg.toList), "",
       "Markdown Content:"] from rfl]
  simp only [List.cons_append, List.nil_append]
  have gT : ¬ pyStartswith "" "Title: " = true := by decide
  have gU : ¬ pyStartswith "" "URL Source: " = true := by decide
  have gD : ¬ pyStartswith "" "Description: " = true := by decide
  have gL : ¬ pyStartswith "" "Language: " = true := by decide
  have gM : ¬ pyStartswith "" "Markdown Content:" = true := by decide
  have gTU : ¬ pyStartswith (String.mk ("URL Source: ".toList ++ u.toList))
      "Title: " = true := guard_false rfl
  have gTD : ¬ pyStartswith (String.mk ("Description: ".toList ++ d.toList))
      "Title: " = true := guard_false rfl
  have gUD : ¬ pyStartswith (String.mk ("Description: ".toList ++ d.toList))
      "URL Source: " = true := guard_false rfl
  have gTL : ¬ pyStartswith (String.mk ("Language: ".toList ++ lg.toList))
      "Title: " = true := guard_false rfl
  have gUL : ¬ pyStartswith (String.mk ("Language: ".toList ++ lg.toList))
      "URL Source: " = true := guard_false rfl
  have gDL : ¬ pyStartswith (String.mk ("Language: ".toList ++ lg.toList))
      "Description: " = true := guard_false rfl
  have gTM : ¬ pyStartswith "Markdown Content:" "Title: " = true := by decide
  have gUM : ¬ pyStartswith "Markdown Content:" "URL Source: " = true := by decide
  have gDM : ¬ pyStartswith "Markdown Content:" "Description: " = true := by decide
  have gLM : ¬ pyStartswith "Markdown Content:" "Language: " = true := by decide
  -- line 1: "Title: " ++ t
  rw [parseSavedLines,
    if_pos (show pyStartswith (String.mk ("Title: ".toList ++ t.toList)) "Title: " = true
      from isPrefixList_append_self _ _),
    strip_replace_header "Title: " t (by decide) hti hts]
  -- line 2: blank
  rw [parseSavedLines, if_neg gT, if_neg gU, if_neg gD, if_neg gL, if_neg gM]
  -- line 3: "URL Source: " ++ u
  rw [parseSavedLines, if_neg gTU,
    if_pos (show pyStartswith (String.mk ("URL Source: ".toList ++ u.toList))
      "URL Source: " = true from isPrefixList_append_self _ _),
    strip_replace_header "URL Source: " u (by decide) hui hus]
  -- line 4: blank
  rw [parseSavedLines, if_neg gT, if_neg gU, if_neg gD, if_neg gL, if_neg gM]
  -- line 5: "Description: " ++ d
  rw [parseSavedLines, if_neg gTD, if_neg gUD,
    if_pos (show pyStartswith (String.mk ("Description: ".toList ++ d.toList))
      "Description: " = true from isPrefixList_append_self _ _),
    strip_replace_header "Description: " d (by decide) hdi hds]
  -- line 6: blank
  rw [parseSavedLines, if_neg gT, if_neg gU, if_neg gD, if_neg gL, if_neg gM]
  -- line 7: "Language: " ++ lg
  rw [parseSavedLines, if_neg gTL, if_neg gUL, if_neg gDL,
    if_pos (show pyStartswith (String.mk ("Language: ".toList ++ lg.toList))
      "Language: " = true from isPrefixList_append_self _ _),
    strip_replace_header "Language: " lg (by decide) hli hls]
  -- line 8: blank
  rw [parseSavedLines, if_neg gT, if_neg gU, if_neg gD, if_neg gL, if_neg gM]
  -- line 9: "Markdown Content:"
  rw [parseSavedLines, if_neg gTM, if_neg gUM, if_neg gDM, if_neg gLM,
    if_pos (show
      pyStartswith ("Markdown Content:" : String) "Markdown Content:" = true from rfl)]
  -- joined tail is the original body
  have hjoin : pyJoin '\n' (List.map String.mk (splitOnChar '\n' c.toList)) = c := by
    rw [pyJoin, List.map_map,
      show (String.toList ∘ String.mk) = id from funext fun _ => rfl, List.map_id,
      joinChar_splitOnChar, mk_toList]
  rw [hjoin]

/-- C10 counterexample: a title that is newline-free and has no surrounding
whitespace but happens to contain the header label — `"Title: x"` — does not
survive the format-then-parse round trip: the writer's `replace`-based
parsing strips every occurrence of `"Title: "` and recovers `"x"`. -/
theorem formatted_roundtrip_cex :
    (save_markdown_parse (formatted_content "Title: x" "u" "d" "l" "body")).title = "x" ∧
    ("x" : String) ≠ "Title: x" ∧
    pyStrip "Title: x" = "Title: x" ∧
    (∀ ch ∈ ("Title: x" : String).toList, ¬ ch = '\n') := by
  refine ⟨by decide, by decide, by decide, by decide⟩

/-- Witness for C10 (amended): concrete fields round-trip exactly, with the
body recovered stripped. -/
theorem formatted_roundtrip_witness :
    save_markdown_parse
        (formatted_content "My Title" "https://r/x" "A desc" "fr" "body\n\nmore  ") =
      ⟨"My Title", "https://r/x", "A desc", "fr", "body\n\nmore"⟩ := by
  have h := formatted_roundtrip "My Title" "https://r/x" "A desc" "fr" "body\n\nmore  "
    (by decide) (by decide) (by decide) (by decide)
    (by decide) (by decide) (by decide) (by decide)
    (by decide) (by decide) (by decide) (by decide)
  rw [h]
  decide

theorem containsList_single_eq_false (c : Char) : ∀ l : List Char,
    (∀ ch ∈ l, ¬ ch = c) → containsList [c] l = false
  | [], _ => rfl
  | x :: rest, h => by
    have hx : (c == x) = false :=
      beq_eq_false_iff_ne.mpr fun hc => (h x (by simp)) hc.symm
    have ih := containsList_single_eq_false c rest fun ch hch => h ch (by simp [hch])
    simp [containsList, isPrefixList, hx, ih]

theorem urlSplit_some_noparams (u : String) (a rest : List Char)
    (h : splitFirstOn ([':', '/', '/']) u.toList = some (a, rest))
    (hsemi : ∀ ch ∈ rest, ¬ ch = ';') :
    urlSplit u =
      (String.mk (rest.takeWhile fun c => !(c == '/' || c == '?' || c == '#')),
       String.mk (((rest.drop
          ((rest.takeWhile fun c => !(c == '/' || c == '?' || c == '#')).length)).takeWhile
            fun c => !(c == '?' || c == '#')))) := by
  have hraw : containsList ([';'])
      ((rest.drop
        ((rest.takeWhile fun c => !(c == '/' || c == '?' || c == '#')).length)).takeWhile
          fun c => !(c == '?' || c == '#')) = false := by
    apply containsList_single_eq_false
    intro ch hch
    exact hsemi ch (List.mem_of_mem_drop ((List.takeWhile_prefix _).sublist.subset hch))
  simp only [urlSplit, h, hraw, Bool.and_false, Bool.false_eq_true, if_false]

/-- C5 counterexample: three independent failures of the claim.  The
pipeline saves the record fetched for requested URL
`https://req.example/ask` — whose resolved URL is
`https://site.example/real` — under `req.example_ask.md`, the name derived
from the requested URL, not `site.example_real.md`.  The host transform
removes every occurrence of `www.`, not just a leading prefix:
`docs.www.example.com` becomes `docs.example.com`, where the spec's
leading-prefix rule would keep `docs.www.example.com`.  And trailing-slash
collapse fails when the last path segment carries `;params`: `urlparse`
strips `;p` from `/x;p` but not from `/x;p/`, so the two URLs map to
different filenames. -/
theorem save_filename_cex :
    crawlSavedFilename ⟨true, true, 0⟩
        (fun _ => .resp 200 (some ⟨"", ⟨"T", "C", some "https://site.example/real", "D", ""⟩⟩))
        "https://req.example/ask" = some "req.example_ask.md" ∧
    save_filename "https://site.example/real" = "site.example_real.md" ∧
    ("req.example_ask.md" : String) ≠ "site.example_real.md" ∧
    save_filename "https://docs.www.example.com/a" = "docs.example.com_a.md" ∧
    save_filename_specModel "https://docs.www.example.com/a" = "docs.www.example.com_a.md" ∧
    ("docs.example.com_a.md" : String) ≠ "docs.www.example.com_a.md" ∧
    save_filename "https://a.com/x;p" = "a.com_x.md" ∧
    save_filename ("https://a.com/x;p" ++ "/") = "a.com_x;p.md" ∧
    ("a.com_x.md" : String) ≠ "a.com_x;p.md" := by
  refine ⟨by decide, by decide, by decide, by decide, by decide, by decide,
    by decide, by decide, by decide⟩

/-- C5 (amended): the output filename is a pure function of the *originally
requested* URL — the host with *every* occurrence of `www.` removed,
concatenated with the path with slashes replaced by underscores, `index` for
an empty path — and two URLs differing only by a trailing slash map to the
same file path for hierarchical URLs `scheme://...` with a well-formed
scheme and no query, fragment, or parameter component (no `?`, `#` or `;`
after the scheme; a `;` in the last path segment starts `urlparse` params,
which break the collapse, as the counterexample shows). -/
theorem save_filename_derivation :
    (∀ (cfg : Config) (env : Nat → HttpResult) (url : String) (r : PageRecord),
      (fetch_with_jina cfg env url).1 = .success r →
      crawlSavedFilename cfg env url = some (save_filename url)) ∧
    (∀ (u : String) (a rest : List Char),
      splitFirstOn ([':', '/', '/']) u.toList = some (a, rest) →
      validScheme a = true →
      (∀ ch ∈ rest, ¬ ch = '?' ∧ ¬ ch = '#' ∧ ¬ ch = ';') →
      save_filename (u ++ "/") = save_filename u) := by
  constructor
  · intro cfg env url r h
    simp only [crawlSavedFilename, h]
  · intro u a rest hsplit _hscheme hq
    have hsplit2 : splitFirstOn ([':', '/', '/']) (u ++ "/").toList =
        some (a, rest ++ ['/']) := by
      rw [show (u ++ "/").toList = u.toList ++ ['/'] from rfl]
      exact splitFirstOn_append _ _ _ _ _ hsplit
    have hsemi : ∀ ch ∈ rest, ¬ ch = ';' := fun ch hch => (hq ch hch).2.2
    have hsemi2 : ∀ ch ∈ rest ++ ['/'], ¬ ch = ';' := by
      intro ch hch
      rcases List.mem_append.mp hch with h | h
      · exact hsemi ch h
      · simp only [List.mem_singleton] at h
        subst h
        decide
    have hnet : ((rest ++ ['/']).takeWhile fun c => !(c == '/' || c == '?' || c == '#')) =
        rest.takeWhile fun c => !(c == '/' || c == '?' || c == '#') :=
      takeWhile_append_stop _ '/' rfl rest
    have hn : ((rest.takeWhile fun c => !(c == '/' || c == '?' || c == '#')).length) ≤
        rest.length :=
      (List.takeWhile_prefix _).length_le
    have hafterq : ∀ ch ∈ rest.drop
        ((rest.takeWhile fun c => !(c == '/' || c == '?' || c == '#')).length),
        (fun c => !(c == '?' || c == '#')) ch = true := by
      intro ch hch
      obtain ⟨h1, h2, _⟩ := hq ch (List.mem_of_mem_drop hch)
      have e1 : (ch == '?') = false := by simpa using h1
      have e2 : (ch == '#') = false := by simpa using h2
      simp [e1, e2]
    have hA : urlSplit (u ++ "/") =
        ((urlSplit u).1, String.mk ((urlSplit u).2.toList ++ ['/'])) := by
      rw [urlSplit_some_noparams (u ++ "/") a (rest ++ ['/']) hsplit2 hsemi2,
        urlSplit_some_noparams u a rest hsplit hsemi]
      rw [hnet, List.drop_append_of_le_length hn,
        List.takeWhile_append_of_pos hafterq,
        show ((['/'] : List Char).takeWhile fun c => !(c == '?' || c == '#')) = ['/']
          from rfl,
        takeWhile_all _ _ hafterq]
      rfl
    rw [save_filename, save_filename, hA]
    rw [show (String.mk ((urlSplit u).2.toList ++ ['/'])).toList =
      (urlSplit u).2.toList ++ ['/'] from rfl]
    rw [show stripCharEnds '/' ((urlSplit u).2.toList ++ ['/']) =
      stripCharEnds '/' ((urlSplit u).2.toList) from
        stripWhile_append_stop _ '/' rfl _]

/-- Witness for C5 (amended): the saved name for a concrete successful fetch
is derived from the requested URL, and appending a trailing slash to that
URL yields the same filename. -/
theorem save_filename_derivation_witness :
    crawlSavedFilename ⟨false, false, 0⟩
        (fun _ => .resp 200 (some ⟨"", ⟨"T", "C", some "https://a.com/x", "D", ""⟩⟩))
        "https://a.com/x" = some "a.com_x.md" ∧
    save_filename ("https://a.com/x" ++ "/") = save_filename "https://a.com/x" := by
  constructor
  · have h1 := save_filename_derivation.1 ⟨false, false, 0⟩
      (fun _ => .resp 200 (some ⟨"", ⟨"T", "C", some "https://a.com/x", "D", ""⟩⟩))
      "https://a.com/x" ⟨"T", "C", "https://a.com/x", "D", ""⟩ (by decide)
    rw [h1]
    decide
  · exact save_filename_derivation.2 "https://a.com/x" ("https".toList)
      ("a.com/x".toList) (by decide) (by decide) (by decide)

end Crawler
